import Mathlib

/-!
Verification of the directory-tree scanner in `better_tree.py`.

The development shallowly embeds the `DirectoryScanner` class: the
filesystem is a Lean inductive tree, the shared session state
(stop flag, the `_progress` and `_total` counters, the findings list)
is threaded explicitly, and the concurrent dispatch of a child scan is
collapsed to its sequential semantics, with per-dispatch timeout and
dispatch-error events recorded as oracles on the tree nodes.
-/

/-- Security-related keywords to look for in directory names
(`SECURITY_KEYWORDS` in the source). -/
def SECURITY_KEYWORDS : List String := [
  "secret", "private", "secure", "security", "password",
  "credential", "cert", "certificate", "key", "token",
  "auth", "oauth", "ssh", "ssl", "tls", "confidential",
  "sensitive", "restricted", ".env", "vault"
]

/-- Python `str.lower()`, embedded as per-character lowercasing of the
underlying character list (the keywords and all names of interest are
ASCII, where `Char.toLower` agrees with Python). -/
def strLower (s : String) : String := ⟨s.data.map Char.toLower⟩

/-- `DirectoryScanner.check_security_keywords`: lowercase the name and test
whether any keyword occurs in it as a substring (the Python `in` operator
on strings is substring containment). -/
def check_security_keywords (path_name : String) : Bool :=
  let path_lower := strLower path_name
  SECURITY_KEYWORDS.any (fun keyword => decide (keyword.data <:+: path_lower.data))

example : check_security_keywords "MySecretFolder" = true := by decide
example : check_security_keywords "docs" = false := by decide

/-- Outcome of one dispatched child scan (`executor.submit` followed by
`future.result(timeout=self.timeout)` in the source): the wait succeeds,
raises `concurrent.futures.TimeoutError`, or the dispatch raises some
other exception with message `msg`.  The timeout and error events are
real-time phenomena; the embedding records them as per-node oracles. -/
inductive DispatchOutcome where
  | ok
  | timedOut
  | errored (msg : String)

/-- One child entry yielded by `path.iterdir()`, as classified by the loop
in `scan_directory`: a plain file, a symlink (with what `resolve()` would
find), or a directory (with what scanning it would find: vanished in a
race, unlistable from a permission or OS error, or a listable child list).
Directory-like entries carry the dispatch outcome of their recursive scan;
a followed symlink to a directory carries the resolved name and path used
by the source for its line and its security finding. -/
inductive DirEntry where
  | file (name : String)
  | linkUnresolvable (name : String)
  | linkBroken (name : String)
  | linkToFile (name : String)
  | linkToDir (name rname rpath : String) (outcome : DispatchOutcome) (children : List DirEntry)
  | dir (name : String) (outcome : DispatchOutcome) (children : List DirEntry)
  | dirVanished (name : String) (outcome : DispatchOutcome)
  | dirUnlistable (name : String) (outcome : DispatchOutcome)

/-- What `scan_directory` finds at its `start_path` argument: the path does
not exist, its children cannot be listed (PermissionError or OSError), or
listing succeeds with these children. -/
inductive ScanTarget where
  | missing
  | unlistable
  | ok (children : List DirEntry)

def DirEntry.name : DirEntry → String
  | .file n => n
  | .linkUnresolvable n => n
  | .linkBroken n => n
  | .linkToFile n => n
  | .linkToDir n _ _ _ _ => n
  | .dir n _ _ => n
  | .dirVanished n _ => n
  | .dirUnlistable n _ => n

/-- Stable insertion into an already-sorted list, placing `e` after every
element whose name is strictly smaller and before the first other one. -/
def insertByName (e : DirEntry) : List DirEntry → List DirEntry
  | [] => [e]
  | x :: xs => if x.name < e.name then x :: insertByName e xs else e :: x :: xs

/-- `sorted(path.iterdir())`: siblings in ascending name order.  Python
`sorted` is stable, and a stable sort is determined uniquely by the
comparator, so stable insertion sort is the same function. -/
def sortByName : List DirEntry → List DirEntry
  | [] => []
  | x :: xs => insertByName x (sortByName xs)

mutual
/-- Node weight used as the termination measure of the scan recursion. -/
def DirEntry.w : DirEntry → Nat
  | .file _ => 1
  | .linkUnresolvable _ => 1
  | .linkBroken _ => 1
  | .linkToFile _ => 1
  | .linkToDir _ _ _ _ cs => 2 + wList cs
  | .dir _ _ cs => 2 + wList cs
  | .dirVanished _ _ => 2
  | .dirUnlistable _ _ => 2

def wList : List DirEntry → Nat
  | [] => 0
  | e :: es => DirEntry.w e + wList es
end

def ScanTarget.w : ScanTarget → Nat
  | .missing => 1
  | .unlistable => 1
  | .ok cs => 1 + wList cs

theorem DirEntry.w_pos (e : DirEntry) : 1 ≤ e.w := by
  cases e <;> simp [DirEntry.w] <;> omega

theorem wList_insertByName (e : DirEntry) (l : List DirEntry) :
    wList (insertByName e l) = DirEntry.w e + wList l := by
  induction l with
  | nil => simp [insertByName, wList]
  | cons x xs ih =>
    simp only [insertByName]
    split
    · simp [wList, ih]; omega
    · simp [wList]

theorem wList_sortByName (l : List DirEntry) : wList (sortByName l) = wList l := by
  induction l with
  | nil => rfl
  | cons x xs ih => simp [sortByName, wList_insertByName, wList, ih]

theorem wList_filter_le (p : DirEntry → Bool) (l : List DirEntry) :
    wList (l.filter p) ≤ wList l := by
  induction l with
  | nil => simp [wList]
  | cons x xs ih =>
    simp only [List.filter]
    split
    · simp only [wList]; omega
    · simp only [wList]; omega


/-- `DirectoryScanner.__init__` configuration.  `timeout` is the wait
deadline in seconds and `max_workers` the thread-pool size; neither value
influences which lines are produced (the timeout events themselves are the
`DispatchOutcome` oracles), both are kept for fidelity. -/
structure ScanConfig where
  max_depth : Option Nat
  timeout : Nat
  follow_symlinks : Bool
  max_workers : Nat
  show_hidden : Bool
  show_security : Bool
  use_unicode : Bool

/-- The configuration fields `scan_directory` actually reads. -/
structure ScanParams where
  max_depth : Option Nat
  follow_symlinks : Bool
  show_hidden : Bool
  show_security : Bool
  use_unicode : Bool

def ScanConfig.params (cfg : ScanConfig) : ScanParams :=
  ⟨cfg.max_depth, cfg.follow_symlinks, cfg.show_hidden, cfg.show_security, cfg.use_unicode⟩

/-- The shared session state of one scan: `_stop_event`, `_progress`,
`_total` and `security_findings`.  The lock that guards the counters in
the source serializes the updates; the sequential embedding threads the
state explicitly, which realizes the same serialization. -/
structure ScanState where
  stop_event : Bool
  progress : Nat
  total : Nat
  security_findings : List String

def initState : ScanState := ⟨false, 0, 0, []⟩

def branchGlyph (u : Bool) : String := if u then "├─ " else "+--"
def lastGlyph (u : Bool) : String := if u then "└─ " else "\\--"
def verticalGlyph (u : Bool) : String := if u then "│  " else "|  "
def spaceGlyph : String := "   "

/-- `self.max_depth is not None and current_depth > self.max_depth`. -/
def depthExceeded (max_depth : Option Nat) (current_depth : Nat) : Bool :=
  match max_depth with
  | some d => decide (d < current_depth)
  | none => false

/-- `e.name.startswith('.')`. -/
def isHiddenName (s : String) : Bool :=
  match s.data with
  | [] => false
  | c :: _ => c == '.'

/-- `self._progress += 1` (under the lock). -/
def bumpProgress (σ : ScanState) : ScanState := { σ with progress := σ.progress + 1 }

/-- `self.tree_chars['last' if is_last else 'branch']`. -/
def entryGlyph (u : Bool) (is_last : Bool) : String :=
  if is_last then lastGlyph u else branchGlyph u

/-- `extension = self.tree_chars['space'] if is_last else self.tree_chars['vertical']`. -/
def childExtension (u : Bool) (is_last : Bool) : String :=
  if is_last then spaceGlyph else verticalGlyph u

/-- The security check of the directory branch: when `show_security` is on
and the name matches, append the full path to `self.security_findings`. -/
def secUpdate (p : ScanParams) (name entry_path : String) (σ : ScanState) : ScanState :=
  if p.show_security && check_security_keywords name
  then { σ with security_findings := σ.security_findings ++ [entry_path] } else σ

/-- The listing as iterated by the loop: `entries = sorted(path.iterdir())`
followed by the hidden filter when `show_hidden` is false. -/
def visibleSorted (show_hidden : Bool) (cs : List DirEntry) : List DirEntry :=
  if show_hidden then sortByName cs
  else (sortByName cs).filter (fun e => !isHiddenName e.name)

theorem wList_visibleSorted_le (sh : Bool) (cs : List DirEntry) :
    wList (visibleSorted sh cs) ≤ wList cs := by
  unfold visibleSorted
  have h1 := wList_sortByName cs
  split
  · omega
  · have h2 := wList_filter_le (fun e => !isHiddenName e.name) (sortByName cs)
    omega

mutual
/-- Embeds one call of `DirectoryScanner.scan_directory`: the stop-flag
check, the depth bound, the existence check, listing with sorting and
hidden filtering (a PermissionError or OSError returns the empty list),
the `_total` increment, then the child loop. -/
def scanDir (p : ScanParams) (start_path : String) (t : ScanTarget)
    (current_depth : Nat) (pfx : String) (σ : ScanState) : List String × ScanState :=
  if σ.stop_event then ([], σ)
  else if depthExceeded p.max_depth current_depth then ([], σ)
  else
    match t with
    | .missing => ([], σ)
    | .unlistable => ([], σ)
    | .ok cs =>
      scanChildren p start_path current_depth pfx
        (visibleSorted p.show_hidden cs)
        { σ with total := σ.total + 1 }
termination_by (t.w, 0)
decreasing_by
  simp_wf
  apply Prod.Lex.left
  have h1 := wList_visibleSorted_le p.show_hidden cs
  simp [ScanTarget.w]; omega

/-- The `for i, entry in enumerate(entries)` loop of `scan_directory`,
returning the lines the remaining entries append to `tree`; the loop
checks the stop flag before each entry and `is_last` is whether the entry
is the last of the list. -/
def scanChildren (p : ScanParams) (path : String) (current_depth : Nat) (pfx : String)
    (es : List DirEntry) (σ : ScanState) : List String × ScanState :=
  match es with
  | [] => ([], σ)
  | e :: rest =>
    if σ.stop_event then ([], σ)
    else
      let r := scanChild p path current_depth pfx rest.isEmpty e σ
      let s := scanChildren p path current_depth pfx rest r.2
      (r.1 ++ s.1, s.2)
termination_by (wList es, 3)
decreasing_by
  · simp_wf
    have h : DirEntry.w x ≤ wList (x :: xs) := by simp [wList]
    rcases lt_or_eq_of_le h with h' | h'
    · exact Prod.Lex.left _ _ h'
    · rw [h']; exact Prod.Lex.right _ (by omega)
  · simp_wf
    apply Prod.Lex.left
    have := DirEntry.w_pos x
    simp [wList]; omega

/-- One loop iteration of `scan_directory` on entry `e`: symlink handling
first (each symlink branch ends in `continue`, skipping the `_progress`
increment), then directory classification with the dispatched recursive
scan, then `_progress += 1`; a plain file appends nothing. -/
def scanChild (p : ScanParams) (path : String) (current_depth : Nat) (pfx : String)
    (is_last : Bool) (e : DirEntry) (σ : ScanState) : List String × ScanState :=
  let glyph := entryGlyph p.use_unicode is_last
  match e with
  | .file _ => ([], bumpProgress σ)
  | .linkUnresolvable n =>
    if p.follow_symlinks then ([pfx ++ glyph ++ n ++ "/ [unresolvable symlink]"], σ)
    else ([pfx ++ glyph ++ n ++ "/ [symlink]"], σ)
  | .linkBroken n =>
    if p.follow_symlinks then ([pfx ++ glyph ++ n ++ "/ [broken symlink]"], σ)
    else ([pfx ++ glyph ++ n ++ "/ [symlink]"], σ)
  | .linkToFile n =>
    if p.follow_symlinks then ([], bumpProgress σ)
    else ([pfx ++ glyph ++ n ++ "/ [symlink]"], σ)
  | .linkToDir n rname rpath o cs =>
    if p.follow_symlinks then scanSub p rname rpath o (.ok cs) current_depth pfx is_last σ
    else ([pfx ++ glyph ++ n ++ "/ [symlink]"], σ)
  | .dir n o cs => scanSub p n (path ++ "/" ++ n) o (.ok cs) current_depth pfx is_last σ
  | .dirVanished n o => scanSub p n (path ++ "/" ++ n) o .missing current_depth pfx is_last σ
  | .dirUnlistable n o => scanSub p n (path ++ "/" ++ n) o .unlistable current_depth pfx is_last σ
termination_by (e.w, 2)
decreasing_by
  all_goals simp_wf
  all_goals apply Prod.Lex.left
  all_goals simp [ScanTarget.w, DirEntry.w]
  all_goals omega

/-- The directory branch of the loop body: the optional security finding,
the directory line itself, the recursive call dispatched on a fresh
bounded pool awaited with the per-level deadline, and the `_progress`
increment.  On success the child lines are appended after the directory
line; on timeout a single `[Scan timeout]` line is appended at the child
prefix and the global stop flag is set (the dispatched call itself ran
concurrently until the deadline, which the sequential collapse renders as
its run happening before the timeout is observed, its lines discarded);
on any other dispatch error a single `[Error: <msg>]` line is appended
and the stop flag is left alone. -/
def scanSub (p : ScanParams) (name entry_path : String) (o : DispatchOutcome) (t : ScanTarget)
    (current_depth : Nat) (pfx : String) (is_last : Bool) (σ : ScanState) :
    List String × ScanState :=
  let σ1 := secUpdate p name entry_path σ
  let glyph := entryGlyph p.use_unicode is_last
  let dirLine := pfx ++ glyph ++ name ++ "/"
  let extension := childExtension p.use_unicode is_last
  match o with
  | .ok =>
    let r := scanDir p entry_path t (current_depth + 1) (pfx ++ extension) σ1
    (dirLine :: r.1, bumpProgress r.2)
  | .timedOut =>
    let r := scanDir p entry_path t (current_depth + 1) (pfx ++ extension) σ1
    (dirLine :: [pfx ++ extension ++ lastGlyph p.use_unicode ++ "[Scan timeout]"],
      bumpProgress { r.2 with stop_event := true })
  | .errored msg =>
    (dirLine :: [pfx ++ extension ++ lastGlyph p.use_unicode ++ "[Error: " ++ msg ++ "]"],
      bumpProgress σ1)
termination_by (t.w, 1)
decreasing_by
  all_goals simp_wf
  all_goals exact Prod.Lex.right _ (by omega)
end

/-- `DirectoryScanner.scan_directory` with the full configuration record;
only the fields in `ScanConfig.params` influence the result. -/
def scan_directory (cfg : ScanConfig) (start_path : String) (t : ScanTarget)
    (current_depth : Nat) (pfx : String) (σ : ScanState) : List String × ScanState :=
  scanDir cfg.params start_path t current_depth pfx σ

/-- `DirectoryScanner.get_progress`: returns `self._progress`. -/
def get_progress (σ : ScanState) : Nat := σ.progress

/-- `DirectoryScanner.get_total_directories`: the source returns
`self._progress` here as well (not `self._total`). -/
def get_total_directories (σ : ScanState) : Nat := σ.progress

def DispatchOutcome.isTimedOut : DispatchOutcome → Bool
  | .timedOut => true
  | _ => false

def DispatchOutcome.isErrored : DispatchOutcome → Bool
  | .errored _ => true
  | _ => false

mutual
/-- No dispatched scan anywhere inside the entry exceeds its deadline. -/
def noTimeoutE : DirEntry → Bool
  | .file _ => true
  | .linkUnresolvable _ => true
  | .linkBroken _ => true
  | .linkToFile _ => true
  | .linkToDir _ _ _ o cs => !o.isTimedOut && noTimeoutL cs
  | .dir _ o cs => !o.isTimedOut && noTimeoutL cs
  | .dirVanished _ o => !o.isTimedOut
  | .dirUnlistable _ o => !o.isTimedOut

def noTimeoutL : List DirEntry → Bool
  | [] => true
  | e :: r => noTimeoutE e && noTimeoutL r
end

def noTimeoutT : ScanTarget → Bool
  | .missing => true
  | .unlistable => true
  | .ok cs => noTimeoutL cs

mutual
/-- Every dispatched scan anywhere inside the entry completes normally:
no deadline is exceeded and no dispatch raises another exception. -/
def allOkE : DirEntry → Bool
  | .file _ => true
  | .linkUnresolvable _ => true
  | .linkBroken _ => true
  | .linkToFile _ => true
  | .linkToDir _ _ _ o cs => !o.isTimedOut && !o.isErrored && allOkL cs
  | .dir _ o cs => !o.isTimedOut && !o.isErrored && allOkL cs
  | .dirVanished _ o => !o.isTimedOut && !o.isErrored
  | .dirUnlistable _ o => !o.isTimedOut && !o.isErrored

def allOkL : List DirEntry → Bool
  | [] => true
  | e :: r => allOkE e && allOkL r
end

def allOkT : ScanTarget → Bool
  | .missing => true
  | .unlistable => true
  | .ok cs => allOkL cs

mutual
/-- Number of `_progress` increments a completed scan performs for this
child entry, when no dispatch times out: one for the child itself unless
it is handled by one of the symlink `continue` branches (which skip the
increment), plus the increments of its recursively scanned children. -/
def processedE (follow sh : Bool) : DirEntry → Nat
  | .file _ => 1
  | .linkUnresolvable _ => 0
  | .linkBroken _ => 0
  | .linkToFile _ => if follow then 1 else 0
  | .linkToDir _ _ _ o cs =>
    if follow then
      (if o.isErrored then 1 else 1 + processedL follow sh (visibleSorted sh cs))
    else 0
  | .dir _ o cs => if o.isErrored then 1 else 1 + processedL follow sh (visibleSorted sh cs)
  | .dirVanished _ _ => 1
  | .dirUnlistable _ _ => 1
termination_by e => (e.w, 0)
decreasing_by
  all_goals simp_wf
  all_goals rename_i o cs h
  all_goals apply Prod.Lex.left
  all_goals have := wList_visibleSorted_le sh cs
  all_goals simp [DirEntry.w]
  all_goals omega

def processedL (follow sh : Bool) : List DirEntry → Nat
  | [] => 0
  | e :: r => processedE follow sh e + processedL follow sh r
termination_by l => (wList l, 1)
decreasing_by
  · simp_wf
    have h : DirEntry.w x ≤ wList (x :: xs) := by simp [wList]
    rcases lt_or_eq_of_le h with h' | h'
    · exact Prod.Lex.left _ _ h'
    · rw [h']; exact Prod.Lex.right _ (by omega)
  · simp_wf
    apply Prod.Lex.left
    have := DirEntry.w_pos x
    simp [wList]; omega
end

def processedT (follow sh : Bool) : ScanTarget → Nat
  | .missing => 0
  | .unlistable => 0
  | .ok cs => processedL follow sh (visibleSorted sh cs)

mutual
/-- Modelled on the ordering contract of the specification, for scans that
follow no symlinks: the lines one child entry contributes, depth-first,
the directory line preceding all lines of its children. -/
def spec_lines_entry (sh u : Bool) (pfx : String) (is_last : Bool) : DirEntry → List String
  | .file _ => []
  | .linkUnresolvable n => [pfx ++ entryGlyph u is_last ++ n ++ "/ [symlink]"]
  | .linkBroken n => [pfx ++ entryGlyph u is_last ++ n ++ "/ [symlink]"]
  | .linkToFile n => [pfx ++ entryGlyph u is_last ++ n ++ "/ [symlink]"]
  | .linkToDir n _ _ _ _ => [pfx ++ entryGlyph u is_last ++ n ++ "/ [symlink]"]
  | .dir n _ cs =>
    (pfx ++ entryGlyph u is_last ++ n ++ "/") ::
      spec_lines_list sh u (pfx ++ childExtension u is_last) (visibleSorted sh cs)
  | .dirVanished n _ => [pfx ++ entryGlyph u is_last ++ n ++ "/"]
  | .dirUnlistable n _ => [pfx ++ entryGlyph u is_last ++ n ++ "/"]
termination_by e => (e.w, 0)
decreasing_by
  simp_wf
  rename_i o cs
  apply Prod.Lex.left
  have := wList_visibleSorted_le sh cs
  simp [DirEntry.w]
  omega

/-- Sibling blocks concatenated in list order, `is_last` marking the final
sibling of the already sorted and filtered list. -/
def spec_lines_list (sh u : Bool) (pfx : String) : List DirEntry → List String
  | [] => []
  | e :: rest => spec_lines_entry sh u pfx rest.isEmpty e ++ spec_lines_list sh u pfx rest
termination_by l => (wList l, 1)
decreasing_by
  · simp_wf
    have h : DirEntry.w x ≤ wList (x :: xs) := by simp [wList]
    rcases lt_or_eq_of_le h with h' | h'
    · exact Prod.Lex.left _ _ h'
    · rw [h']; exact Prod.Lex.right _ (by omega)
  · simp_wf
    apply Prod.Lex.left
    have := DirEntry.w_pos x
    simp [wList]; omega
end

/-- Lines of a whole scan target under the ordering contract: a missing or
unlistable directory contributes an absence of entries. -/
def spec_lines_target (sh u : Bool) (pfx : String) : ScanTarget → List String
  | .missing => []
  | .unlistable => []
  | .ok cs => spec_lines_list sh u pfx (visibleSorted sh cs)

mutual
/-- Removes every entry whose name starts with the hidden marker from all
child lists of the tree, at every depth. -/
def hideE : DirEntry → DirEntry
  | .dir n o cs => .dir n o (hideL cs)
  | .linkToDir n rn rp o cs => .linkToDir n rn rp o (hideL cs)
  | .file n => .file n
  | .linkUnresolvable n => .linkUnresolvable n
  | .linkBroken n => .linkBroken n
  | .linkToFile n => .linkToFile n
  | .dirVanished n o => .dirVanished n o
  | .dirUnlistable n o => .dirUnlistable n o

def hideL : List DirEntry → List DirEntry
  | [] => []
  | e :: r => if isHiddenName e.name then hideL r else hideE e :: hideL r
end

def hideT : ScanTarget → ScanTarget
  | .missing => .missing
  | .unlistable => .unlistable
  | .ok cs => .ok (hideL cs)

def timeoutPat : List Char := "[Scan timeout]".data

/-- Whether an output line is a `[Scan timeout]` line: the source emits the
marker as the final segment of the line, after the depth prefix. -/
def isTimeoutLine (l : String) : Bool := timeoutPat.isSuffixOf l.data

def countTimeoutLines (ls : List String) : Nat := ls.countP isTimeoutLine

theorem scanDir_stop (p : ScanParams) (path : String) (t : ScanTarget) (d : Nat)
    (pfx : String) (σ : ScanState) (h : σ.stop_event = true) :
    scanDir p path t d pfx σ = ([], σ) := by
  unfold scanDir; simp [h]

theorem scanDir_depth (p : ScanParams) (path : String) (t : ScanTarget) (d : Nat)
    (pfx : String) (σ : ScanState) (h : depthExceeded p.max_depth d = true) :
    scanDir p path t d pfx σ = ([], σ) := by
  unfold scanDir
  by_cases hs : σ.stop_event = true <;> simp [hs, h]

theorem scanDir_missing (p : ScanParams) (path : String) (d : Nat)
    (pfx : String) (σ : ScanState) : scanDir p path .missing d pfx σ = ([], σ) := by
  unfold scanDir
  by_cases hs : σ.stop_event = true <;> simp [hs]

theorem scanDir_unlistable (p : ScanParams) (path : String) (d : Nat)
    (pfx : String) (σ : ScanState) : scanDir p path .unlistable d pfx σ = ([], σ) := by
  unfold scanDir
  by_cases hs : σ.stop_event = true <;> simp [hs]

theorem scanDir_ok (p : ScanParams) (path : String) (cs : List DirEntry) (d : Nat)
    (pfx : String) (σ : ScanState) (hs : σ.stop_event = false)
    (hd : depthExceeded p.max_depth d = false) :
    scanDir p path (.ok cs) d pfx σ =
      scanChildren p path d pfx (visibleSorted p.show_hidden cs)
        { σ with total := σ.total + 1 } := by
  unfold scanDir; simp [hs, hd]

theorem scanChildren_nil (p : ScanParams) (path : String) (d : Nat)
    (pfx : String) (σ : ScanState) : scanChildren p path d pfx [] σ = ([], σ) := by
  unfold scanChildren; rfl

theorem scanChildren_stop (p : ScanParams) (path : String) (d : Nat) (pfx : String)
    (es : List DirEntry) (σ : ScanState) (h : σ.stop_event = true) :
    scanChildren p path d pfx es σ = ([], σ) := by
  cases es <;> simp [scanChildren, h]

theorem scanChildren_cons (p : ScanParams) (path : String) (d : Nat) (pfx : String)
    (e : DirEntry) (rest : List DirEntry) (σ : ScanState) (hs : σ.stop_event = false) :
    scanChildren p path d pfx (e :: rest) σ =
      ((scanChild p path d pfx rest.isEmpty e σ).1 ++
        (scanChildren p path d pfx rest (scanChild p path d pfx rest.isEmpty e σ).2).1,
       (scanChildren p path d pfx rest (scanChild p path d pfx rest.isEmpty e σ).2).2) := by
  conv_lhs => unfold scanChildren
  simp [hs]

theorem scanSub_ok (p : ScanParams) (name ep : String) (t : ScanTarget) (d : Nat)
    (pfx : String) (il : Bool) (σ : ScanState) :
    scanSub p name ep .ok t d pfx il σ =
      ((pfx ++ entryGlyph p.use_unicode il ++ name ++ "/") ::
        (scanDir p ep t (d + 1) (pfx ++ childExtension p.use_unicode il)
          (secUpdate p name ep σ)).1,
       bumpProgress (scanDir p ep t (d + 1) (pfx ++ childExtension p.use_unicode il)
          (secUpdate p name ep σ)).2) := by
  conv_lhs => unfold scanSub

theorem scanSub_timedOut (p : ScanParams) (name ep : String) (t : ScanTarget) (d : Nat)
    (pfx : String) (il : Bool) (σ : ScanState) :
    scanSub p name ep .timedOut t d pfx il σ =
      ([pfx ++ entryGlyph p.use_unicode il ++ name ++ "/",
        pfx ++ childExtension p.use_unicode il ++ lastGlyph p.use_unicode ++ "[Scan timeout]"],
       bumpProgress
         { (scanDir p ep t (d + 1) (pfx ++ childExtension p.use_unicode il)
             (secUpdate p name ep σ)).2 with stop_event := true }) := by
  conv_lhs => unfold scanSub

theorem scanSub_errored (p : ScanParams) (name ep : String) (msg : String) (t : ScanTarget)
    (d : Nat) (pfx : String) (il : Bool) (σ : ScanState) :
    scanSub p name ep (.errored msg) t d pfx il σ =
      ([pfx ++ entryGlyph p.use_unicode il ++ name ++ "/",
        pfx ++ childExtension p.use_unicode il ++ lastGlyph p.use_unicode ++
          "[Error: " ++ msg ++ "]"],
       bumpProgress (secUpdate p name ep σ)) := by
  conv_lhs => unfold scanSub

theorem scanChild_dir (p : ScanParams) (path : String) (d : Nat) (pfx : String)
    (il : Bool) (n : String) (o : DispatchOutcome) (cs : List DirEntry) (σ : ScanState) :
    scanChild p path d pfx il (.dir n o cs) σ =
      scanSub p n (path ++ "/" ++ n) o (.ok cs) d pfx il σ := by
  conv_lhs => unfold scanChild

theorem scanChild_file (p : ScanParams) (path : String) (d : Nat) (pfx : String)
    (il : Bool) (n : String) (σ : ScanState) :
    scanChild p path d pfx il (.file n) σ = ([], bumpProgress σ) := by
  conv_lhs => unfold scanChild

theorem visibleSorted_singleton (sh : Bool) (e : DirEntry) (h : isHiddenName e.name = false) :
    visibleSorted sh [e] = [e] := by
  unfold visibleSorted
  split
  · rfl
  · simp [sortByName, insertByName, h]

/-- C5: a scan of a path that does not exist, and a scan of a path whose
children cannot be listed, each return the empty sequence with the session
state untouched, for every configuration, depth, prefix and state: the
failure is silent and local, surfaced only as an absence of entries. -/
theorem c5_missing_or_unlistable_silent (cfg : ScanConfig) (path : String) (d : Nat)
    (pfx : String) (σ : ScanState) :
    scan_directory cfg path .missing d pfx σ = ([], σ) ∧
    scan_directory cfg path .unlistable d pfx σ = ([], σ) :=
  ⟨scanDir_missing cfg.params path d pfx σ, scanDir_unlistable cfg.params path d pfx σ⟩

/-- C4: with `maxDepth = d`, a call entered with `currentDepth > d` returns
the empty sequence at once, before listing children or touching any
counter; while a call entered with `currentDepth` at most `d` on a listable
directory still proceeds: its visible child directory has its line emitted
first, whatever the outcome of the dispatched recursion. -/
theorem c4_depth_bound (cfg : ScanConfig) (path : String) (t : ScanTarget)
    (k d : Nat) (pfx : String) (σ : ScanState) (n : String) (o : DispatchOutcome)
    (cs : List DirEntry) (hmd : cfg.max_depth = some d) :
    (d < k → scan_directory cfg path t k pfx σ = ([], σ)) ∧
    (k ≤ d → σ.stop_event = false → isHiddenName n = false →
      ∃ restLines σf,
        scan_directory cfg path (.ok [.dir n o cs]) k pfx σ =
          ((pfx ++ entryGlyph cfg.use_unicode true ++ n ++ "/") :: restLines, σf)) := by
  constructor
  · intro hk
    apply scanDir_depth
    simp [ScanConfig.params, depthExceeded, hmd, hk]
  · intro hk hs hn
    have hd : depthExceeded cfg.params.max_depth k = false := by
      simp [ScanConfig.params, depthExceeded, hmd]; omega
    rw [scan_directory, scanDir_ok cfg.params path _ k pfx σ hs hd]
    rw [visibleSorted_singleton _ _ (by simpa [DirEntry.name] using hn)]
    rw [scanChildren_cons _ _ _ _ _ _ _ (by simp [hs])]
    rw [List.isEmpty_nil, scanChild_dir]
    cases o with
    | ok =>
      rw [scanSub_ok]
      exact ⟨_, _, rfl⟩
    | timedOut =>
      rw [scanSub_timedOut]
      exact ⟨_, _, rfl⟩
    | errored msg =>
      rw [scanSub_errored]
      exact ⟨_, _, rfl⟩


/-- C8: a child whose dispatched scan fails with an error other than a
timeout contributes its directory line followed by exactly one
`[Error: <message>]` line at the child position, leaves the stop flag
unchanged (still unset), and the loop then continues with the next
sibling from the bumped state. -/
theorem c8_error_local (cfg : ScanConfig) (path n : String) (msg : String)
    (cs rest : List DirEntry) (d : Nat) (pfx : String) (il : Bool) (σ : ScanState)
    (hs : σ.stop_event = false) :
    scanSub cfg.params n (path ++ "/" ++ n) (.errored msg) (.ok cs) d pfx il σ =
      ([pfx ++ entryGlyph cfg.use_unicode il ++ n ++ "/",
        pfx ++ childExtension cfg.use_unicode il ++ lastGlyph cfg.use_unicode ++
          "[Error: " ++ msg ++ "]"],
       bumpProgress (secUpdate cfg.params n (path ++ "/" ++ n) σ)) ∧
    (bumpProgress (secUpdate cfg.params n (path ++ "/" ++ n) σ)).stop_event = false ∧
    scanChildren cfg.params path d pfx (.dir n (.errored msg) cs :: rest) σ =
      ((pfx ++ entryGlyph cfg.use_unicode rest.isEmpty ++ n ++ "/") ::
        (pfx ++ childExtension cfg.use_unicode rest.isEmpty ++ lastGlyph cfg.use_unicode ++
          "[Error: " ++ msg ++ "]") ::
        (scanChildren cfg.params path d pfx rest
          (bumpProgress (secUpdate cfg.params n (path ++ "/" ++ n) σ))).1,
       (scanChildren cfg.params path d pfx rest
          (bumpProgress (secUpdate cfg.params n (path ++ "/" ++ n) σ))).2) := by
  refine ⟨scanSub_errored cfg.params n (path ++ "/" ++ n) msg (.ok cs) d pfx il σ, ?_, ?_⟩
  · simp [bumpProgress, secUpdate]
    split <;> simp [hs]
  · rw [scanChildren_cons _ _ _ _ _ _ _ hs, scanChild_dir, scanSub_errored]
    rfl

/-- C10: with `followSymlinks` disabled, every symlink entry, whatever its
target (unresolvable, vanished target, plain file, or directory), is
rendered as exactly one line with the directory-style suffix
`/ [symlink]`, is never recursed into, and leaves the session state
untouched; in particular a symlink to a plain file does appear. -/
theorem c10_symlink_rendering (cfg : ScanConfig) (path n rn rp : String)
    (o : DispatchOutcome) (cs : List DirEntry) (d : Nat) (pfx : String)
    (il : Bool) (σ : ScanState) (hf : cfg.follow_symlinks = false) :
    scanChild cfg.params path d pfx il (.linkUnresolvable n) σ =
      ([pfx ++ entryGlyph cfg.use_unicode il ++ n ++ "/ [symlink]"], σ) ∧
    scanChild cfg.params path d pfx il (.linkBroken n) σ =
      ([pfx ++ entryGlyph cfg.use_unicode il ++ n ++ "/ [symlink]"], σ) ∧
    scanChild cfg.params path d pfx il (.linkToFile n) σ =
      ([pfx ++ entryGlyph cfg.use_unicode il ++ n ++ "/ [symlink]"], σ) ∧
    scanChild cfg.params path d pfx il (.linkToDir n rn rp o cs) σ =
      ([pfx ++ entryGlyph cfg.use_unicode il ++ n ++ "/ [symlink]"], σ) := by
  refine ⟨?_, ?_, ?_, ?_⟩ <;> (unfold scanChild; simp [ScanConfig.params, hf])

/-- C9: the keyword matcher is a pure case-insensitive substring test
against the static keyword list: `matches("MySecretFolder")` holds,
`matches("docs")` does not, two names with the same lowercasing always
agree, and a name matches exactly when some keyword of the list occurs
in its lowercased form. -/
theorem c9_keyword_matcher :
    check_security_keywords "MySecretFolder" = true ∧
    check_security_keywords "docs" = false ∧
    (∀ s t : String, strLower s = strLower t →
      check_security_keywords s = check_security_keywords t) ∧
    (∀ s : String, check_security_keywords s = true ↔
      ∃ kw ∈ SECURITY_KEYWORDS, kw.data <:+: (strLower s).data) := by
  refine ⟨by decide, by decide, ?_, ?_⟩
  · intro s t h
    unfold check_security_keywords
    rw [h]
  · intro s
    unfold check_security_keywords
    simp

/-- The configuration of a default run: unlimited depth, 60 second
deadline, symlinks not followed, ten workers, hidden entries hidden,
security findings off, Unicode glyphs. -/
def cfgDefault : ScanConfig := ⟨none, 60, false, 10, false, false, true⟩

/-- C1 (code bug): scanning a directory that contains two plain files
visits exactly one directory, the root itself, whose children were listed
once (`_total` = 1), yet both `get_progress` and `get_total_directories`
return the entries-processed counter `_progress` = 2: the accessors do not
return the count of directories visited.  The source maintains `_total`
for that count and never reads it; `get_total_directories` returns
`self._progress`. -/
theorem c1_accessors_return_progress_not_total :
    get_total_directories
      (scan_directory cfgDefault "/root" (.ok [.file "a.txt", .file "b.txt"]) 0 "" initState).2 = 2 ∧
    get_progress
      (scan_directory cfgDefault "/root" (.ok [.file "a.txt", .file "b.txt"]) 0 "" initState).2 = 2 ∧
    (scan_directory cfgDefault "/root" (.ok [.file "a.txt", .file "b.txt"]) 0 "" initState).2.total = 1 ∧
    get_total_directories
      (scan_directory cfgDefault "/root" (.ok [.file "a.txt", .file "b.txt"]) 0 "" initState).2 ≠
    (scan_directory cfgDefault "/root" (.ok [.file "a.txt", .file "b.txt"]) 0 "" initState).2.total := by
  refine ⟨?_, ?_, ?_, ?_⟩ <;>
    simp +decide [scan_directory, ScanConfig.params, cfgDefault, scanDir, scanChildren,
      scanChild, scanSub, visibleSorted, sortByName, insertByName, isHiddenName,
      bumpProgress, initState, depthExceeded, get_progress, get_total_directories,
      DirEntry.name, secUpdate, entryGlyph, childExtension]

/-- C2 (counterexample): a directory whose single child is a symlink to a
plain file, scanned without following symlinks.  The child is processed
and its `[symlink]` line emitted, yet the `continue` of the symlink branch
skips the `_progress` increment: the counter stays 0 where the claim
requires it to have grown by 1. -/
theorem c2_symlink_child_skips_progress :
    (scan_directory cfgDefault "/root" (.ok [.linkToFile "s"]) 0 "" initState).1 =
      ["└─ " ++ "s" ++ "/ [symlink]"] ∧
    (scan_directory cfgDefault "/root" (.ok [.linkToFile "s"]) 0 "" initState).2.progress = 0 ∧
    (scan_directory cfgDefault "/root" (.ok [.linkToFile "s"]) 0 "" initState).2.progress ≠ 1 := by
  refine ⟨?_, ?_, ?_⟩ <;>
    simp +decide [scan_directory, ScanConfig.params, cfgDefault, scanDir, scanChildren,
      scanChild, scanSub, visibleSorted, sortByName, insertByName, isHiddenName,
      bumpProgress, initState, depthExceeded, DirEntry.name, secUpdate, entryGlyph,
      childExtension, lastGlyph, branchGlyph]

theorem secUpdate_stop (p : ScanParams) (n ep : String) (σ : ScanState) :
    (secUpdate p n ep σ).stop_event = σ.stop_event := by
  unfold secUpdate; split <;> rfl

theorem secUpdate_progress (p : ScanParams) (n ep : String) (σ : ScanState) :
    (secUpdate p n ep σ).progress = σ.progress := by
  unfold secUpdate; split <;> rfl

theorem noTimeoutL_insertByName (e : DirEntry) (l : List DirEntry) :
    noTimeoutL (insertByName e l) = (noTimeoutE e && noTimeoutL l) := by
  induction l with
  | nil => simp [insertByName, noTimeoutL]
  | cons x xs ih =>
    simp only [insertByName]
    split
    · simp only [noTimeoutL, ih]
      rw [Bool.and_left_comm]
    · simp [noTimeoutL]

theorem noTimeoutL_sortByName (l : List DirEntry) :
    noTimeoutL (sortByName l) = noTimeoutL l := by
  induction l with
  | nil => rfl
  | cons x xs ih => simp [sortByName, noTimeoutL_insertByName, noTimeoutL, ih]

theorem noTimeoutL_filter (q : DirEntry → Bool) (l : List DirEntry)
    (h : noTimeoutL l = true) : noTimeoutL (l.filter q) = true := by
  induction l with
  | nil => simpa using h
  | cons x xs ih =>
    simp only [noTimeoutL, Bool.and_eq_true] at h
    simp only [List.filter]
    split
    · simp [noTimeoutL, h.1, ih h.2]
    · exact ih h.2

theorem noTimeoutL_visibleSorted (sh : Bool) (cs : List DirEntry)
    (h : noTimeoutL cs = true) : noTimeoutL (visibleSorted sh cs) = true := by
  unfold visibleSorted
  split
  · rwa [noTimeoutL_sortByName]
  · exact noTimeoutL_filter _ _ (by rwa [noTimeoutL_sortByName])

/-- Joint progress accounting for all four scan functions: with unlimited
depth, no timeout anywhere and the stop flag unset, the `_progress`
counter grows by exactly the processed count and the stop flag stays
unset. -/
theorem progress_accounting (p : ScanParams) (hmd : p.max_depth = none) :
    (∀ path t d pfx σ, σ.stop_event = false → noTimeoutT t = true →
      (scanDir p path t d pfx σ).2.progress =
        σ.progress + processedT p.follow_symlinks p.show_hidden t ∧
      (scanDir p path t d pfx σ).2.stop_event = false) ∧
    (∀ path d pfx es σ, σ.stop_event = false → noTimeoutL es = true →
      (scanChildren p path d pfx es σ).2.progress =
        σ.progress + processedL p.follow_symlinks p.show_hidden es ∧
      (scanChildren p path d pfx es σ).2.stop_event = false) ∧
    (∀ path d pfx il e σ, σ.stop_event = false → noTimeoutE e = true →
      (scanChild p path d pfx il e σ).2.progress =
        σ.progress + processedE p.follow_symlinks p.show_hidden e ∧
      (scanChild p path d pfx il e σ).2.stop_event = false) ∧
    (∀ name ep o t d pfx il σ, σ.stop_event = false → o.isTimedOut = false →
      noTimeoutT t = true →
      (scanSub p name ep o t d pfx il σ).2.progress =
        σ.progress +
          (if o.isErrored then 1
           else 1 + processedT p.follow_symlinks p.show_hidden t) ∧
      (scanSub p name ep o t d pfx il σ).2.stop_event = false) := by
  refine scanDir.mutual_induct p
    (fun path t d pfx σ => σ.stop_event = false → noTimeoutT t = true →
      (scanDir p path t d pfx σ).2.progress =
        σ.progress + processedT p.follow_symlinks p.show_hidden t ∧
      (scanDir p path t d pfx σ).2.stop_event = false)
    (fun path d pfx es σ => σ.stop_event = false → noTimeoutL es = true →
      (scanChildren p path d pfx es σ).2.progress =
        σ.progress + processedL p.follow_symlinks p.show_hidden es ∧
      (scanChildren p path d pfx es σ).2.stop_event = false)
    (fun path d pfx il e σ => σ.stop_event = false → noTimeoutE e = true →
      (scanChild p path d pfx il e σ).2.progress =
        σ.progress + processedE p.follow_symlinks p.show_hidden e ∧
      (scanChild p path d pfx il e σ).2.stop_event = false)
    (fun name ep o t d pfx il σ => σ.stop_event = false → o.isTimedOut = false →
      noTimeoutT t = true →
      (scanSub p name ep o t d pfx il σ).2.progress =
        σ.progress +
          (if o.isErrored then 1
           else 1 + processedT p.follow_symlinks p.show_hidden t) ∧
      (scanSub p name ep o t d pfx il σ).2.stop_event = false)
    ?_ ?_ ?_ ?_ ?_ ?_ ?_ ?_ ?_ ?_ ?_ ?_ ?_ ?_ ?_ ?_ ?_ ?_ ?_ ?_ ?_ ?_ ?_
  · intro path t d pfx σ h hs _
    rw [hs] at h; exact absurd h (by simp)
  · intro path t d pfx σ _ hdep hs _
    rw [hmd] at hdep
    exact absurd hdep (by simp [depthExceeded])
  · intro path d pfx σ _ _ hs _
    rw [scanDir_missing]
    simp [processedT, hs]
  · intro path d pfx σ _ _ hs _
    rw [scanDir_unlistable]
    simp [processedT, hs]
  · intro path d pfx σ hstop hdep cs ih hs hnt
    rw [scanDir_ok _ _ _ _ _ _ hs (by simp [hmd, depthExceeded])]
    have h2 : noTimeoutL (visibleSorted p.show_hidden cs) = true :=
      noTimeoutL_visibleSorted _ _ (by simpa [noTimeoutT] using hnt)
    have := ih (by simpa using hs) h2
    simpa [processedT] using this
  · intro path d pfx σ hs _
    rw [scanChildren_nil]
    simp [processedL, hs]
  · intro path d pfx σ x xs h hs _
    rw [hs] at h; exact absurd h (by simp)
  · intro path d pfx σ x xs hstop r ih3 ih2 hs hnt
    simp only [noTimeoutL, Bool.and_eq_true] at hnt
    rw [scanChildren_cons _ _ _ _ _ _ _ hs]
    obtain ⟨hp3, hs3⟩ := ih3 hs hnt.1
    obtain ⟨hp2, hs2⟩ := ih2 hs3 hnt.2
    constructor
    · rw [hp2, hp3]
      simp [processedL]
      omega
    · exact hs2
  · intro path d pfx il σ n hs _
    rw [scanChild_file]
    simp [processedE, bumpProgress, hs]
  · intro path d pfx il σ n hf hs _
    unfold scanChild
    simp [hf, processedE, hs]
  · intro path d pfx il σ n hf hs _
    unfold scanChild
    simp [hf, processedE, hs]
  · intro path d pfx il σ n hf hs _
    unfold scanChild
    simp [hf, processedE, hs]
  · intro path d pfx il σ n hf hs _
    unfold scanChild
    simp [hf, processedE, hs]
  · intro path d pfx il σ n hf hs _
    unfold scanChild
    simp [hf, processedE, bumpProgress, hs]
  · intro path d pfx il σ n hf hs _
    unfold scanChild
    simp [hf, processedE, hs]
  · intro path d pfx il σ n rn rp o cs hf ih4 hs hnt
    simp only [noTimeoutE, Bool.and_eq_true, Bool.not_eq_true'] at hnt
    unfold scanChild
    simp only [hf, if_true]
    have := ih4 hs hnt.1 (by simpa [noTimeoutT] using hnt.2)
    simpa [processedE, processedT, hf] using this
  · intro path d pfx il σ n rn rp o cs hf hs _
    unfold scanChild
    simp [hf, processedE, hs]
  · intro path d pfx il σ n o cs ih4 hs hnt
    simp only [noTimeoutE, Bool.and_eq_true, Bool.not_eq_true'] at hnt
    rw [scanChild_dir]
    have := ih4 hs hnt.1 (by simpa [noTimeoutT] using hnt.2)
    simpa [processedE, processedT] using this
  · intro path d pfx il σ n o ih4 hs hnt
    simp only [noTimeoutE, Bool.not_eq_true'] at hnt
    unfold scanChild
    have := ih4 hs hnt (by simp [noTimeoutT])
    rcases this with ⟨hp, hst⟩
    constructor
    · rw [hp]
      simp only [processedE, processedT]
      split <;> omega
    · exact hst
  · intro path d pfx il σ n o ih4 hs hnt
    simp only [noTimeoutE, Bool.not_eq_true'] at hnt
    unfold scanChild
    have := ih4 hs hnt (by simp [noTimeoutT])
    rcases this with ⟨hp, hst⟩
    constructor
    · rw [hp]
      simp only [processedE, processedT]
      split <;> omega
    · exact hst
  · intro name ep t d pfx il σ σ1 ext ih1 hs hto hnt
    obtain ⟨hp, hst⟩ := ih1 ((secUpdate_stop p name ep σ).trans hs) hnt
    have hp2 : (scanDir p ep t (d + 1) (pfx ++ childExtension p.use_unicode il)
        (secUpdate p name ep σ)).2.progress =
        (secUpdate p name ep σ).progress +
          processedT p.follow_symlinks p.show_hidden t := hp
    have hst2 : (scanDir p ep t (d + 1) (pfx ++ childExtension p.use_unicode il)
        (secUpdate p name ep σ)).2.stop_event = false := hst
    rw [scanSub_ok]
    constructor
    · simp only [bumpProgress, hp2, secUpdate_progress]
      simp [DispatchOutcome.isErrored]
      omega
    · simpa [bumpProgress] using hst2
  · intro name ep t d pfx il σ σ1 ext ih1 hs hto hnt
    exact absurd hto (by simp [DispatchOutcome.isTimedOut])
  · intro name ep t d pfx il σ msg hs _ _
    rw [scanSub_errored]
    constructor
    · simp [bumpProgress, secUpdate_progress, DispatchOutcome.isErrored]
    · simp [bumpProgress, secUpdate_stop, hs]

/-- C2 (amended): the `_progress` counter is incremented by exactly 1 for
a plain-file child, never for a child handled by the symlink annotation
branches (their `continue` skips the increment, whether or not symlinks
are followed), and by 1 for a followed symlink resolving to a file; and a
completed call with unlimited depth and no timeout grows the counter by
the recursively counted number of children processed outside the symlink
branches. -/
theorem c2_progress_counts_nonsymlink_children (cfg : ScanConfig) (path n : String)
    (d : Nat) (pfx : String) (il : Bool) (σ : ScanState) (t : ScanTarget)
    (hmd : cfg.max_depth = none) :
    (scanChild cfg.params path d pfx il (.file n) σ).2.progress = σ.progress + 1 ∧
    (scanChild cfg.params path d pfx il (.linkUnresolvable n) σ).2.progress = σ.progress ∧
    (scanChild cfg.params path d pfx il (.linkBroken n) σ).2.progress = σ.progress ∧
    (scanChild cfg.params path d pfx il (.linkToFile n) σ).2.progress =
      σ.progress + (if cfg.follow_symlinks then 1 else 0) ∧
    (σ.stop_event = false → noTimeoutT t = true →
      (scan_directory cfg path t d pfx σ).2.progress =
        σ.progress + processedT cfg.follow_symlinks cfg.show_hidden t) := by
  refine ⟨?_, ?_, ?_, ?_, ?_⟩
  · rw [scanChild_file]; rfl
  · unfold scanChild
    by_cases hf : cfg.params.follow_symlinks = true <;> simp [hf]
  · unfold scanChild
    by_cases hf : cfg.params.follow_symlinks = true <;> simp [hf]
  · unfold scanChild
    by_cases hf : cfg.params.follow_symlinks = true
    · simp [hf, bumpProgress]
      have : cfg.follow_symlinks = true := hf
      simp [this]
    · simp [hf, bumpProgress]
      have : cfg.follow_symlinks = false := by simpa using hf
      simp [this]
  · intro hs hnt
    exact ((progress_accounting cfg.params hmd).1 path t d pfx σ hs hnt).1

theorem mem_insertByName {a e : DirEntry} {l : List DirEntry} :
    a ∈ insertByName e l ↔ a = e ∨ a ∈ l := by
  induction l with
  | nil => simp [insertByName]
  | cons x xs ih =>
    simp only [insertByName]
    split
    · simp only [List.mem_cons, ih]
      tauto
    · rw [List.mem_cons]

theorem sorted_insertByName (e : DirEntry) (l : List DirEntry)
    (h : l.Pairwise (fun a b => a.name ≤ b.name)) :
    (insertByName e l).Pairwise (fun a b => a.name ≤ b.name) := by
  induction l with
  | nil => simp [insertByName]
  | cons x xs ih =>
    simp only [insertByName]
    rcases List.pairwise_cons.mp h with ⟨hx, hxs⟩
    split
    · rename_i hlt
      refine List.pairwise_cons.mpr ⟨?_, ih hxs⟩
      intro y hy
      rcases mem_insertByName.mp hy with rfl | hy'
      · exact le_of_lt hlt
      · exact hx y hy'
    · rename_i hge
      refine List.pairwise_cons.mpr ⟨?_, h⟩
      intro y hy
      have hex : e.name ≤ x.name := le_of_not_lt hge
      rcases List.mem_cons.mp hy with rfl | hy'
      · exact hex
      · exact le_trans hex (hx y hy')

theorem sorted_sortByName (l : List DirEntry) :
    (sortByName l).Pairwise (fun a b => a.name ≤ b.name) := by
  induction l with
  | nil => simp [sortByName]
  | cons x xs ih => exact sorted_insertByName x (sortByName xs) ih

theorem insertByName_front (e : DirEntry) (l : List DirEntry)
    (h : ∀ y ∈ l, ¬(y.name < e.name)) : insertByName e l = e :: l := by
  cases l with
  | nil => rfl
  | cons x xs =>
    simp only [insertByName]
    rw [if_neg (h x (List.mem_cons_self x xs))]

theorem filter_insertByName (q : DirEntry → Bool) (e : DirEntry) (l : List DirEntry)
    (h : l.Pairwise (fun a b => a.name ≤ b.name)) :
    (insertByName e l).filter q =
      if q e then insertByName e (l.filter q) else l.filter q := by
  induction l with
  | nil =>
    by_cases hqe : q e = true <;> simp [hqe, List.filter, insertByName]
  | cons x xs ih =>
    rcases List.pairwise_cons.mp h with ⟨hx, hxs⟩
    simp only [insertByName]
    split
    · rename_i hlt
      rw [List.filter_cons, ih hxs, List.filter_cons]
      by_cases hqx : q x = true <;> by_cases hqe : q e = true <;>
        simp [hqx, hqe, insertByName, hlt]
    · rename_i hge
      by_cases hqe : q e = true
      · have hflt : (e :: x :: xs).filter q = e :: ((x :: xs).filter q) := by
          rw [List.filter_cons, if_pos hqe]
        rw [hflt, if_pos hqe, insertByName_front]
        intro y hy
        have hy2 := List.mem_of_mem_filter hy
        rcases List.mem_cons.mp hy2 with rfl | hmem
        · exact hge
        · exact not_lt.mpr (le_trans (le_of_not_lt hge) (hx y hmem))
      · have hflt : (e :: x :: xs).filter q = (x :: xs).filter q := by
          rw [List.filter_cons, if_neg hqe]
        rw [hflt, if_neg hqe]

theorem filter_sortByName (q : DirEntry → Bool) (l : List DirEntry) :
    (sortByName l).filter q = sortByName (l.filter q) := by
  induction l with
  | nil => rfl
  | cons x xs ih =>
    simp only [sortByName, List.filter_cons]
    rw [filter_insertByName q x (sortByName xs) (sorted_sortByName xs), ih]
    by_cases hqx : q x = true <;> simp [hqx, sortByName]

theorem hideE_name (e : DirEntry) : (hideE e).name = e.name := by
  cases e <;> simp [hideE, DirEntry.name]

theorem hideL_map (cs : List DirEntry) :
    hideL cs = (cs.filter (fun e => !isHiddenName e.name)).map hideE := by
  induction cs with
  | nil => simp [hideL]
  | cons x xs ih =>
    simp only [hideL, List.filter_cons]
    by_cases h : isHiddenName x.name
    · simp [h, ih]
    · simp [h, ih]

theorem insertByName_map_hideE (e : DirEntry) (l : List DirEntry) :
    insertByName (hideE e) (l.map hideE) = (insertByName e l).map hideE := by
  induction l with
  | nil => simp [insertByName]
  | cons x xs ih =>
    simp only [List.map, insertByName, hideE_name]
    split
    · simp only [List.map, ih]
    · simp only [List.map]

theorem sortByName_map_hideE (l : List DirEntry) :
    sortByName (l.map hideE) = (sortByName l).map hideE := by
  induction l with
  | nil => rfl
  | cons x xs ih => simp only [List.map, sortByName, ih, insertByName_map_hideE]

theorem visibleSorted_hideL (cs : List DirEntry) :
    visibleSorted true (hideL cs) = (visibleSorted false cs).map hideE := by
  unfold visibleSorted
  simp only [if_true, Bool.false_eq_true, if_false]
  rw [hideL_map, sortByName_map_hideE, filter_sortByName]

/-- Joint statement that scanning with `show_hidden` disabled is the same
computation, lines and state alike, as scanning the deeply filtered tree
with `show_hidden` enabled. -/
theorem hide_equiv (q : ScanParams) (hq : q.show_hidden = false) :
    (∀ path t d pfx σ, scanDir q path t d pfx σ =
        scanDir { q with show_hidden := true } path (hideT t) d pfx σ) ∧
    (∀ path d pfx es σ, scanChildren q path d pfx es σ =
        scanChildren { q with show_hidden := true } path d pfx (es.map hideE) σ) ∧
    (∀ path d pfx il e σ, scanChild q path d pfx il e σ =
        scanChild { q with show_hidden := true } path d pfx il (hideE e) σ) ∧
    (∀ name ep o t d pfx il σ, scanSub q name ep o t d pfx il σ =
        scanSub { q with show_hidden := true } name ep o (hideT t) d pfx il σ) := by
  refine scanDir.mutual_induct q
    (fun path t d pfx σ => scanDir q path t d pfx σ =
        scanDir { q with show_hidden := true } path (hideT t) d pfx σ)
    (fun path d pfx es σ => scanChildren q path d pfx es σ =
        scanChildren { q with show_hidden := true } path d pfx (es.map hideE) σ)
    (fun path d pfx il e σ => scanChild q path d pfx il e σ =
        scanChild { q with show_hidden := true } path d pfx il (hideE e) σ)
    (fun name ep o t d pfx il σ => scanSub q name ep o t d pfx il σ =
        scanSub { q with show_hidden := true } name ep o (hideT t) d pfx il σ)
    ?_ ?_ ?_ ?_ ?_ ?_ ?_ ?_ ?_ ?_ ?_ ?_ ?_ ?_ ?_ ?_ ?_ ?_ ?_ ?_ ?_ ?_ ?_
  · intro path t d pfx σ h
    rw [scanDir_stop _ _ _ _ _ _ h, scanDir_stop _ _ _ _ _ _ h]
  · intro path t d pfx σ hstop hdep
    rw [scanDir_depth _ _ _ _ _ _ hdep,
      scanDir_depth { q with show_hidden := true } path (hideT t) d pfx σ
        (show depthExceeded ({ q with show_hidden := true } : ScanParams).max_depth d = true
          from hdep)]
  · intro path d pfx σ _ _
    rw [scanDir_missing, hideT, scanDir_missing]
  · intro path d pfx σ _ _
    rw [scanDir_unlistable, hideT, scanDir_unlistable]
  · intro path d pfx σ hstop hdep cs ih
    have hs : σ.stop_event = false := by simpa using hstop
    have hdep2 : depthExceeded q.max_depth d = false := by simpa using hdep
    rw [scanDir_ok _ _ _ _ _ _ hs hdep2, hideT,
      scanDir_ok { q with show_hidden := true } path (hideL cs) d pfx σ hs
        (show depthExceeded ({ q with show_hidden := true } : ScanParams).max_depth d = false
          from hdep2)]
    have hv : visibleSorted ({ q with show_hidden := true } : ScanParams).show_hidden
        (hideL cs) = (visibleSorted q.show_hidden cs).map hideE := by
      simpa [hq] using visibleSorted_hideL cs
    rw [hv]
    exact ih
  · intro path d pfx σ
    rw [scanChildren_nil, List.map_nil, scanChildren_nil]
  · intro path d pfx σ x xs h
    rw [scanChildren_stop _ _ _ _ _ _ h, scanChildren_stop _ _ _ _ _ _ h]
  · intro path d pfx σ x xs hstop r ih3 ih2
    have hs : σ.stop_event = false := by simpa using hstop
    rw [scanChildren_cons _ _ _ _ _ _ _ hs, List.map_cons,
      scanChildren_cons _ _ _ _ _ _ _ hs]
    have hie : (List.map hideE xs).isEmpty = xs.isEmpty := by cases xs <;> rfl
    rw [hie, ← ih3, ← ih2]
  · intro path d pfx il σ n
    rw [scanChild_file, hideE, scanChild_file]
  · intro path d pfx il σ n hf
    unfold scanChild
    simp [hideE]
  · intro path d pfx il σ n hf
    unfold scanChild
    simp [hideE]
  · intro path d pfx il σ n hf
    unfold scanChild
    simp [hideE]
  · intro path d pfx il σ n hf
    unfold scanChild
    simp [hideE]
  · intro path d pfx il σ n hf
    unfold scanChild
    simp [hideE]
  · intro path d pfx il σ n hf
    unfold scanChild
    simp [hideE]
  · intro path d pfx il σ n rn rp o cs hf ih4
    unfold scanChild
    simp only [hideE, hf]
    simpa [hideT, hf] using ih4
  · intro path d pfx il σ n rn rp o cs hf
    unfold scanChild
    simp [hideE, hf]
  · intro path d pfx il σ n o cs ih4
    rw [scanChild_dir, hideE, scanChild_dir]
    simpa [hideT] using ih4
  · intro path d pfx il σ n o ih4
    unfold scanChild
    simpa [hideE, hideT] using ih4
  · intro path d pfx il σ n o ih4
    unfold scanChild
    simpa [hideE, hideT] using ih4
  · intro name ep t d pfx il σ σ1 ext ih1
    rw [scanSub_ok, scanSub_ok]
    have e1 : (scanDir q ep t (d + 1) (pfx ++ childExtension q.use_unicode il)
        (secUpdate q name ep σ)) =
        (scanDir { q with show_hidden := true } ep (hideT t) (d + 1)
          (pfx ++ childExtension ({ q with show_hidden := true } : ScanParams).use_unicode il)
          (secUpdate { q with show_hidden := true } name ep σ)) := ih1
    rw [e1]
  · intro name ep t d pfx il σ σ1 ext ih1
    rw [scanSub_timedOut, scanSub_timedOut]
    have e1 : (scanDir q ep t (d + 1) (pfx ++ childExtension q.use_unicode il)
        (secUpdate q name ep σ)) =
        (scanDir { q with show_hidden := true } ep (hideT t) (d + 1)
          (pfx ++ childExtension ({ q with show_hidden := true } : ScanParams).use_unicode il)
          (secUpdate { q with show_hidden := true } name ep σ)) := ih1
    rw [e1]
  · intro name ep t d pfx il σ msg
    rw [scanSub_errored, scanSub_errored]
    rfl

/-- C7: scanning with hidden entries suppressed is the very same
computation, output lines and session state alike, as scanning the tree
from which every entry whose name starts with the hidden marker has been
removed at every depth, with hidden entries shown: a hidden entry is
listed, emitted, recursed into and counted exactly when `show_hidden`
admits it, independent of depth.  Concretely, a hidden directory child
appears with `show_hidden` and is absent without it. -/
theorem c7_hidden_filtering (cfg : ScanConfig) (path : String) (t : ScanTarget)
    (d : Nat) (pfx : String) (σ : ScanState) :
    scan_directory { cfg with show_hidden := false } path t d pfx σ =
      scan_directory { cfg with show_hidden := true } path (hideT t) d pfx σ ∧
    (scan_directory { cfgDefault with show_hidden := true } "/r"
      (.ok [.dir ".h" .ok []]) 0 "" initState).1 = ["└─ .h/"] ∧
    (scan_directory { cfgDefault with show_hidden := false } "/r"
      (.ok [.dir ".h" .ok []]) 0 "" initState).1 = [] := by
  refine ⟨?_, ?_, ?_⟩
  · exact (hide_equiv ({ cfg with show_hidden := false } : ScanConfig).params rfl).1
      path t d pfx σ
  · simp +decide [scan_directory, ScanConfig.params, cfgDefault, scanDir, scanChildren,
      scanChild, scanSub, visibleSorted, sortByName, insertByName, isHiddenName,
      bumpProgress, initState, depthExceeded, DirEntry.name, secUpdate, entryGlyph,
      childExtension, lastGlyph, branchGlyph, spaceGlyph, verticalGlyph]
  · simp +decide [scan_directory, ScanConfig.params, cfgDefault, scanDir, scanChildren,
      scanChild, scanSub, visibleSorted, sortByName, insertByName, isHiddenName,
      bumpProgress, initState, depthExceeded, DirEntry.name, secUpdate, entryGlyph,
      childExtension, lastGlyph, branchGlyph, spaceGlyph, verticalGlyph]

theorem allOkL_insertByName (e : DirEntry) (l : List DirEntry) :
    allOkL (insertByName e l) = (allOkE e && allOkL l) := by
  induction l with
  | nil => simp [insertByName, allOkL]
  | cons x xs ih =>
    simp only [insertByName]
    split
    · simp only [allOkL, ih]
      rw [Bool.and_left_comm]
    · simp [allOkL]

theorem allOkL_sortByName (l : List DirEntry) :
    allOkL (sortByName l) = allOkL l := by
  induction l with
  | nil => rfl
  | cons x xs ih => simp [sortByName, allOkL_insertByName, allOkL, ih]

theorem allOkL_filter (q : DirEntry → Bool) (l : List DirEntry)
    (h : allOkL l = true) : allOkL (l.filter q) = true := by
  induction l with
  | nil => simpa using h
  | cons x xs ih =>
    simp only [allOkL, Bool.and_eq_true] at h
    simp only [List.filter]
    split
    · simp [allOkL, h.1, ih h.2]
    · exact ih h.2

theorem allOkL_visibleSorted (sh : Bool) (cs : List DirEntry)
    (h : allOkL cs = true) : allOkL (visibleSorted sh cs) = true := by
  unfold visibleSorted
  split
  · rwa [allOkL_sortByName]
  · exact allOkL_filter _ _ (by rwa [allOkL_sortByName])

/-- Joint refinement of the scan against the ordering contract: with
symlinks not followed, unlimited depth, every dispatch completing
normally and the stop flag unset, the produced lines are exactly the
specified depth-first name-sorted rendering, and the stop flag stays
unset. -/
theorem spec_refinement (p : ScanParams) (hf : p.follow_symlinks = false)
    (hmd : p.max_depth = none) :
    (∀ path t d pfx σ, σ.stop_event = false → allOkT t = true →
      (scanDir p path t d pfx σ).1 =
        spec_lines_target p.show_hidden p.use_unicode pfx t ∧
      (scanDir p path t d pfx σ).2.stop_event = false) ∧
    (∀ path d pfx es σ, σ.stop_event = false → allOkL es = true →
      (scanChildren p path d pfx es σ).1 =
        spec_lines_list p.show_hidden p.use_unicode pfx es ∧
      (scanChildren p path d pfx es σ).2.stop_event = false) ∧
    (∀ path d pfx il e σ, σ.stop_event = false → allOkE e = true →
      (scanChild p path d pfx il e σ).1 =
        spec_lines_entry p.show_hidden p.use_unicode pfx il e ∧
      (scanChild p path d pfx il e σ).2.stop_event = false) ∧
    (∀ name ep o t d pfx il σ, σ.stop_event = false → o.isTimedOut = false →
      o.isErrored = false → allOkT t = true →
      (scanSub p name ep o t d pfx il σ).1 =
        (pfx ++ entryGlyph p.use_unicode il ++ name ++ "/") ::
          spec_lines_target p.show_hidden p.use_unicode
            (pfx ++ childExtension p.use_unicode il) t ∧
      (scanSub p name ep o t d pfx il σ).2.stop_event = false) := by
  refine scanDir.mutual_induct p
    (fun path t d pfx σ => σ.stop_event = false → allOkT t = true →
      (scanDir p path t d pfx σ).1 =
        spec_lines_target p.show_hidden p.use_unicode pfx t ∧
      (scanDir p path t d pfx σ).2.stop_event = false)
    (fun path d pfx es σ => σ.stop_event = false → allOkL es = true →
      (scanChildren p path d pfx es σ).1 =
        spec_lines_list p.show_hidden p.use_unicode pfx es ∧
      (scanChildren p path d pfx es σ).2.stop_event = false)
    (fun path d pfx il e σ => σ.stop_event = false → allOkE e = true →
      (scanChild p path d pfx il e σ).1 =
        spec_lines_entry p.show_hidden p.use_unicode pfx il e ∧
      (scanChild p path d pfx il e σ).2.stop_event = false)
    (fun name ep o t d pfx il σ => σ.stop_event = false → o.isTimedOut = false →
      o.isErrored = false → allOkT t = true →
      (scanSub p name ep o t d pfx il σ).1 =
        (pfx ++ entryGlyph p.use_unicode il ++ name ++ "/") ::
          spec_lines_target p.show_hidden p.use_unicode
            (pfx ++ childExtension p.use_unicode il) t ∧
      (scanSub p name ep o t d pfx il σ).2.stop_event = false)
    ?_ ?_ ?_ ?_ ?_ ?_ ?_ ?_ ?_ ?_ ?_ ?_ ?_ ?_ ?_ ?_ ?_ ?_ ?_ ?_ ?_ ?_ ?_
  · intro path t d pfx σ h hs _
    rw [hs] at h; exact absurd h (by simp)
  · intro path t d pfx σ _ hdep hs _
    rw [hmd] at hdep
    exact absurd hdep (by simp [depthExceeded])
  · intro path d pfx σ _ _ hs _
    rw [scanDir_missing]
    simp [spec_lines_target, hs]
  · intro path d pfx σ _ _ hs _
    rw [scanDir_unlistable]
    simp [spec_lines_target, hs]
  · intro path d pfx σ hstop hdep cs ih hs hok
    rw [scanDir_ok _ _ _ _ _ _ hs (by simp [hmd, depthExceeded])]
    have h2 : allOkL (visibleSorted p.show_hidden cs) = true :=
      allOkL_visibleSorted _ _ (by simpa [allOkT] using hok)
    have := ih (by simpa using hs) h2
    simpa [spec_lines_target] using this
  · intro path d pfx σ hs _
    rw [scanChildren_nil]
    simp [spec_lines_list, hs]
  · intro path d pfx σ x xs h hs _
    rw [hs] at h; exact absurd h (by simp)
  · intro path d pfx σ x xs hstop r ih3 ih2 hs hok
    simp only [allOkL, Bool.and_eq_true] at hok
    rw [scanChildren_cons _ _ _ _ _ _ _ hs]
    obtain ⟨hl3, hs3⟩ := ih3 hs hok.1
    obtain ⟨hl2, hs2⟩ := ih2 hs3 hok.2
    refine ⟨?_, hs2⟩
    rw [hl3, hl2]
    conv_rhs => unfold spec_lines_list
  · intro path d pfx il σ n hs _
    rw [scanChild_file]
    simp [spec_lines_entry, bumpProgress, hs]
  · intro path d pfx il σ n hfol hs _
    exact absurd hfol (by simp [hf])
  · intro path d pfx il σ n hfol hs _
    unfold scanChild
    simp [hfol, spec_lines_entry, entryGlyph, hs]
  · intro path d pfx il σ n hfol hs _
    exact absurd hfol (by simp [hf])
  · intro path d pfx il σ n hfol hs _
    unfold scanChild
    simp [hfol, spec_lines_entry, entryGlyph, hs]
  · intro path d pfx il σ n hfol hs _
    exact absurd hfol (by simp [hf])
  · intro path d pfx il σ n hfol hs _
    unfold scanChild
    simp [hfol, spec_lines_entry, entryGlyph, hs]
  · intro path d pfx il σ n rn rp o cs hfol
    exact absurd hfol (by simp [hf])
  · intro path d pfx il σ n rn rp o cs hfol hs _
    unfold scanChild
    simp [hfol, spec_lines_entry, entryGlyph, hs]
  · intro path d pfx il σ n o cs ih4 hs hok
    simp only [allOkE, Bool.and_eq_true, Bool.not_eq_true'] at hok
    rw [scanChild_dir]
    have := ih4 hs hok.1.1 hok.1.2 (by simpa [allOkT] using hok.2)
    simpa [spec_lines_entry, spec_lines_target] using this
  · intro path d pfx il σ n o ih4 hs hok
    simp only [allOkE, Bool.and_eq_true, Bool.not_eq_true'] at hok
    unfold scanChild
    have := ih4 hs hok.1 hok.2 (by simp [allOkT])
    simpa [spec_lines_entry, spec_lines_target] using this
  · intro path d pfx il σ n o ih4 hs hok
    simp only [allOkE, Bool.and_eq_true, Bool.not_eq_true'] at hok
    unfold scanChild
    have := ih4 hs hok.1 hok.2 (by simp [allOkT])
    simpa [spec_lines_entry, spec_lines_target] using this
  · intro name ep t d pfx il σ σ1 ext ih1 hs _ _ hok
    obtain ⟨hl, hst⟩ := ih1 ((secUpdate_stop p name ep σ).trans hs) hok
    have hl2 : (scanDir p ep t (d + 1) (pfx ++ childExtension p.use_unicode il)
        (secUpdate p name ep σ)).1 =
        spec_lines_target p.show_hidden p.use_unicode
          (pfx ++ childExtension p.use_unicode il) t := hl
    have hst2 : (scanDir p ep t (d + 1) (pfx ++ childExtension p.use_unicode il)
        (secUpdate p name ep σ)).2.stop_event = false := hst
    rw [scanSub_ok]
    exact ⟨by rw [hl2], by simpa [bumpProgress] using hst2⟩
  · intro name ep t d pfx il σ σ1 ext ih1 hs hto _ _
    exact absurd hto (by simp [DispatchOutcome.isTimedOut])
  · intro name ep t d pfx il σ msg hs _ herr _
    exact absurd herr (by simp [DispatchOutcome.isErrored])

/-- C6: for scans that follow no symlinks, with unlimited depth, every
dispatch completing normally and the stop flag unset, the output line
sequence equals the specified deterministic rendering: depth-first,
siblings ascending by name, each directory line preceding all lines of
its subtree; the sorted sibling order is indeed ascending; and the
worker-pool size has no influence on the result, so one worker and ten
workers produce identical output. -/
theorem c6_deterministic_order (cfg : ScanConfig) (path : String) (t : ScanTarget)
    (d : Nat) (pfx : String) (σ : ScanState) (cs : List DirEntry)
    (hf : cfg.follow_symlinks = false) (hmd : cfg.max_depth = none)
    (hs : σ.stop_event = false) (hok : allOkT t = true) :
    (scan_directory cfg path t d pfx σ).1 =
      spec_lines_target cfg.show_hidden cfg.use_unicode pfx t ∧
    (∀ w₁ w₂ : Nat,
      scan_directory { cfg with max_workers := w₁ } path t d pfx σ =
        scan_directory { cfg with max_workers := w₂ } path t d pfx σ) ∧
    (sortByName cs).Pairwise (fun a b => a.name ≤ b.name) := by
  refine ⟨?_, ?_, sorted_sortByName cs⟩
  · exact ((spec_refinement cfg.params hf hmd).1 path t d pfx σ hs hok).1
  · intro w₁ w₂
    rfl

mutual
/-- No dispatched scan anywhere inside the entry fails with a non-timeout
error. -/
def noErrorsE : DirEntry → Bool
  | .file _ => true
  | .linkUnresolvable _ => true
  | .linkBroken _ => true
  | .linkToFile _ => true
  | .linkToDir _ _ _ o cs => !o.isErrored && noErrorsL cs
  | .dir _ o cs => !o.isErrored && noErrorsL cs
  | .dirVanished _ o => !o.isErrored
  | .dirUnlistable _ o => !o.isErrored

def noErrorsL : List DirEntry → Bool
  | [] => true
  | e :: r => noErrorsE e && noErrorsL r
end

def noErrorsT : ScanTarget → Bool
  | .missing => true
  | .unlistable => true
  | .ok cs => noErrorsL cs

theorem noErrorsL_insertByName (e : DirEntry) (l : List DirEntry) :
    noErrorsL (insertByName e l) = (noErrorsE e && noErrorsL l) := by
  induction l with
  | nil => simp [insertByName, noErrorsL]
  | cons x xs ih =>
    simp only [insertByName]
    split
    · simp only [noErrorsL, ih]
      rw [Bool.and_left_comm]
    · simp [noErrorsL]

theorem noErrorsL_sortByName (l : List DirEntry) :
    noErrorsL (sortByName l) = noErrorsL l := by
  induction l with
  | nil => rfl
  | cons x xs ih => simp [sortByName, noErrorsL_insertByName, noErrorsL, ih]

theorem noErrorsL_filter (q : DirEntry → Bool) (l : List DirEntry)
    (h : noErrorsL l = true) : noErrorsL (l.filter q) = true := by
  induction l with
  | nil => simpa using h
  | cons x xs ih =>
    simp only [noErrorsL, Bool.and_eq_true] at h
    simp only [List.filter]
    split
    · simp [noErrorsL, h.1, ih h.2]
    · exact ih h.2

theorem noErrorsL_visibleSorted (sh : Bool) (cs : List DirEntry)
    (h : noErrorsL cs = true) : noErrorsL (visibleSorted sh cs) = true := by
  unfold visibleSorted
  split
  · rwa [noErrorsL_sortByName]
  · exact noErrorsL_filter _ _ (by rwa [noErrorsL_sortByName])

theorem not_suffix_of_append (pat t s : List Char)
    (h1 : ¬ pat <:+ t) (h2 : ¬ t <:+ pat) : ¬ pat <:+ (s ++ t) := by
  intro h
  rcases List.suffix_or_suffix_of_suffix h (List.suffix_append s t) with h3 | h3
  · exact h1 h3
  · exact h2 h3

theorem isTimeoutLine_append_false (t : String) (h1 : ¬ timeoutPat <:+ t.data)
    (h2 : ¬ t.data <:+ timeoutPat) (s : String) : isTimeoutLine (s ++ t) = false := by
  simp only [isTimeoutLine, Bool.eq_false_iff, ne_eq]
  intro hc
  have hsfx : timeoutPat <:+ (s.data ++ t.data) := by
    have h3 : (s ++ t).data = s.data ++ t.data := rfl
    rw [← h3]
    exact List.isSuffixOf_iff_suffix.mp hc
  exact not_suffix_of_append timeoutPat t.data s.data h1 h2 hsfx

theorem isTimeoutLine_dir_line (s : String) : isTimeoutLine (s ++ "/") = false :=
  isTimeoutLine_append_false "/" (by decide) (by decide) s

theorem isTimeoutLine_symlink_line (s : String) :
    isTimeoutLine (s ++ "/ [symlink]") = false :=
  isTimeoutLine_append_false "/ [symlink]" (by decide) (by decide) s

theorem isTimeoutLine_broken_line (s : String) :
    isTimeoutLine (s ++ "/ [broken symlink]") = false :=
  isTimeoutLine_append_false "/ [broken symlink]" (by decide) (by decide) s

theorem isTimeoutLine_unres_line (s : String) :
    isTimeoutLine (s ++ "/ [unresolvable symlink]") = false :=
  isTimeoutLine_append_false "/ [unresolvable symlink]" (by decide) (by decide) s

theorem isTimeoutLine_timeout_line (s : String) :
    isTimeoutLine (s ++ "[Scan timeout]") = true := by
  simp only [isTimeoutLine]
  apply List.isSuffixOf_iff_suffix.mpr
  have h3 : (s ++ "[Scan timeout]").data = s.data ++ timeoutPat := rfl
  rw [h3]
  exact List.suffix_append s.data timeoutPat

theorem countTimeoutLines_cons (l : String) (ls : List String) :
    countTimeoutLines (l :: ls) =
      (if isTimeoutLine l then 1 else 0) + countTimeoutLines ls := by
  simp only [countTimeoutLines, List.countP_cons]
  split <;> omega

theorem countTimeoutLines_append (l1 l2 : List String) :
    countTimeoutLines (l1 ++ l2) = countTimeoutLines l1 + countTimeoutLines l2 := by
  simp [countTimeoutLines, List.countP_append]

/-- Joint invariant: when no dispatch fails with a non-timeout error, any
scan output contains at most one `[Scan timeout]` line, and an output
produced while the stop flag ends up unset contains none. -/
theorem timeout_count_invariant (p : ScanParams) :
    (∀ path t d pfx σ, noErrorsT t = true →
      countTimeoutLines (scanDir p path t d pfx σ).1 ≤ 1 ∧
      ((scanDir p path t d pfx σ).2.stop_event = false →
        countTimeoutLines (scanDir p path t d pfx σ).1 = 0)) ∧
    (∀ path d pfx es σ, noErrorsL es = true →
      countTimeoutLines (scanChildren p path d pfx es σ).1 ≤ 1 ∧
      ((scanChildren p path d pfx es σ).2.stop_event = false →
        countTimeoutLines (scanChildren p path d pfx es σ).1 = 0)) ∧
    (∀ path d pfx il e σ, noErrorsE e = true →
      countTimeoutLines (scanChild p path d pfx il e σ).1 ≤ 1 ∧
      ((scanChild p path d pfx il e σ).2.stop_event = false →
        countTimeoutLines (scanChild p path d pfx il e σ).1 = 0)) ∧
    (∀ name ep o t d pfx il σ, o.isErrored = false → noErrorsT t = true →
      countTimeoutLines (scanSub p name ep o t d pfx il σ).1 ≤ 1 ∧
      ((scanSub p name ep o t d pfx il σ).2.stop_event = false →
        countTimeoutLines (scanSub p name ep o t d pfx il σ).1 = 0)) := by
  refine scanDir.mutual_induct p
    (fun path t d pfx σ => noErrorsT t = true →
      countTimeoutLines (scanDir p path t d pfx σ).1 ≤ 1 ∧
      ((scanDir p path t d pfx σ).2.stop_event = false →
        countTimeoutLines (scanDir p path t d pfx σ).1 = 0))
    (fun path d pfx es σ => noErrorsL es = true →
      countTimeoutLines (scanChildren p path d pfx es σ).1 ≤ 1 ∧
      ((scanChildren p path d pfx es σ).2.stop_event = false →
        countTimeoutLines (scanChildren p path d pfx es σ).1 = 0))
    (fun path d pfx il e σ => noErrorsE e = true →
      countTimeoutLines (scanChild p path d pfx il e σ).1 ≤ 1 ∧
      ((scanChild p path d pfx il e σ).2.stop_event = false →
        countTimeoutLines (scanChild p path d pfx il e σ).1 = 0))
    (fun name ep o t d pfx il σ => o.isErrored = false → noErrorsT t = true →
      countTimeoutLines (scanSub p name ep o t d pfx il σ).1 ≤ 1 ∧
      ((scanSub p name ep o t d pfx il σ).2.stop_event = false →
        countTimeoutLines (scanSub p name ep o t d pfx il σ).1 = 0))
    ?_ ?_ ?_ ?_ ?_ ?_ ?_ ?_ ?_ ?_ ?_ ?_ ?_ ?_ ?_ ?_ ?_ ?_ ?_ ?_ ?_ ?_ ?_
  · intro path t d pfx σ h _
    rw [scanDir_stop _ _ _ _ _ _ h]
    simp [countTimeoutLines]
  · intro path t d pfx σ _ hdep _
    rw [scanDir_depth _ _ _ _ _ _ hdep]
    simp [countTimeoutLines]
  · intro path d pfx σ _ _ _
    rw [scanDir_missing]
    simp [countTimeoutLines]
  · intro path d pfx σ _ _ _
    rw [scanDir_unlistable]
    simp [countTimeoutLines]
  · intro path d pfx σ hstop hdep cs ih hne
    by_cases hs : σ.stop_event = true
    · rw [scanDir_stop _ _ _ _ _ _ hs]
      simp [countTimeoutLines]
    · rw [scanDir_ok _ _ _ _ _ _ (by simpa using hs)
        (by simpa using hdep)]
      exact ih (noErrorsL_visibleSorted _ _ (by simpa [noErrorsT] using hne))
  · intro path d pfx σ _
    rw [scanChildren_nil]
    simp [countTimeoutLines]
  · intro path d pfx σ x xs h _
    rw [scanChildren_stop _ _ _ _ _ _ h]
    simp [countTimeoutLines]
  · intro path d pfx σ x xs hstop r ih3 ih2 hne
    simp only [noErrorsL, Bool.and_eq_true] at hne
    have hs : σ.stop_event = false := by simpa using hstop
    rw [scanChildren_cons _ _ _ _ _ _ _ hs]
    simp only [countTimeoutLines_append]
    obtain ⟨hc3, hz3⟩ := ih3 hne.1
    by_cases hstop2 : (scanChild p path d pfx xs.isEmpty x σ).2.stop_event = true
    · rw [scanChildren_stop _ _ _ _ _ _ hstop2]
      constructor
      · simpa [countTimeoutLines] using hc3
      · intro hfin
        rw [hstop2] at hfin
        exact absurd hfin (by simp)
    · have hz3e := hz3 (by simpa using hstop2)
      obtain ⟨hc2, hz2⟩ := ih2 hne.2
      have hc2e : countTimeoutLines (scanChildren p path d pfx xs
          (scanChild p path d pfx xs.isEmpty x σ).2).1 ≤ 1 := hc2
      have hz2e : (scanChildren p path d pfx xs
            (scanChild p path d pfx xs.isEmpty x σ).2).2.stop_event = false →
          countTimeoutLines (scanChildren p path d pfx xs
            (scanChild p path d pfx xs.isEmpty x σ).2).1 = 0 := hz2
      constructor
      · omega
      · intro hfin
        rw [hz3e, hz2e hfin]
  · intro path d pfx il σ n _
    rw [scanChild_file]
    simp [countTimeoutLines]
  · intro path d pfx il σ n hfol _
    unfold scanChild
    simp only [hfol, if_true]
    constructor
    · rw [countTimeoutLines_cons, isTimeoutLine_unres_line]
      simp [countTimeoutLines]
    · intro _
      rw [countTimeoutLines_cons, isTimeoutLine_unres_line]
      simp [countTimeoutLines]
  · intro path d pfx il σ n hfol _
    unfold scanChild
    simp only [Bool.not_eq_true] at hfol
    simp only [hfol, Bool.false_eq_true, if_false]
    constructor
    · rw [countTimeoutLines_cons, isTimeoutLine_symlink_line]
      simp [countTimeoutLines]
    · intro _
      rw [countTimeoutLines_cons, isTimeoutLine_symlink_line]
      simp [countTimeoutLines]
  · intro path d pfx il σ n hfol _
    unfold scanChild
    simp only [hfol, if_true]
    constructor
    · rw [countTimeoutLines_cons, isTimeoutLine_broken_line]
      simp [countTimeoutLines]
    · intro _
      rw [countTimeoutLines_cons, isTimeoutLine_broken_line]
      simp [countTimeoutLines]
  · intro path d pfx il σ n hfol _
    unfold scanChild
    simp only [Bool.not_eq_true] at hfol
    simp only [hfol, Bool.false_eq_true, if_false]
    constructor
    · rw [countTimeoutLines_cons, isTimeoutLine_symlink_line]
      simp [countTimeoutLines]
    · intro _
      rw [countTimeoutLines_cons, isTimeoutLine_symlink_line]
      simp [countTimeoutLines]
  · intro path d pfx il σ n hfol _
    unfold scanChild
    simp only [hfol, if_true]
    simp [countTimeoutLines]
  · intro path d pfx il σ n hfol _
    unfold scanChild
    simp only [Bool.not_eq_true] at hfol
    simp only [hfol, Bool.false_eq_true, if_false]
    constructor
    · rw [countTimeoutLines_cons, isTimeoutLine_symlink_line]
      simp [countTimeoutLines]
    · intro _
      rw [countTimeoutLines_cons, isTimeoutLine_symlink_line]
      simp [countTimeoutLines]
  · intro path d pfx il σ n rn rp o cs hfol ih4 hne
    simp only [noErrorsE, Bool.and_eq_true, Bool.not_eq_true'] at hne
    unfold scanChild
    simp only [hfol, if_true]
    exact ih4 hne.1 (by simpa [noErrorsT] using hne.2)
  · intro path d pfx il σ n rn rp o cs hfol _
    unfold scanChild
    simp only [Bool.not_eq_true] at hfol
    simp only [hfol, Bool.false_eq_true, if_false]
    constructor
    · rw [countTimeoutLines_cons, isTimeoutLine_symlink_line]
      simp [countTimeoutLines]
    · intro _
      rw [countTimeoutLines_cons, isTimeoutLine_symlink_line]
      simp [countTimeoutLines]
  · intro path d pfx il σ n o cs ih4 hne
    simp only [noErrorsE, Bool.and_eq_true, Bool.not_eq_true'] at hne
    rw [scanChild_dir]
    exact ih4 hne.1 (by simpa [noErrorsT] using hne.2)
  · intro path d pfx il σ n o ih4 hne
    simp only [noErrorsE, Bool.not_eq_true'] at hne
    unfold scanChild
    exact ih4 hne (by simp [noErrorsT])
  · intro path d pfx il σ n o ih4 hne
    simp only [noErrorsE, Bool.not_eq_true'] at hne
    unfold scanChild
    exact ih4 hne (by simp [noErrorsT])
  · intro name ep t d pfx il σ σ1 ext ih1 _ hne
    obtain ⟨hc1, hz1⟩ := ih1 hne
    have hc1e : countTimeoutLines (scanDir p ep t (d + 1)
        (pfx ++ childExtension p.use_unicode il) (secUpdate p name ep σ)).1 ≤ 1 := hc1
    have hz1e : (scanDir p ep t (d + 1) (pfx ++ childExtension p.use_unicode il)
        (secUpdate p name ep σ)).2.stop_event = false →
        countTimeoutLines (scanDir p ep t (d + 1)
          (pfx ++ childExtension p.use_unicode il) (secUpdate p name ep σ)).1 = 0 := hz1
    rw [scanSub_ok]
    constructor
    · rw [countTimeoutLines_cons, isTimeoutLine_dir_line]
      simpa using hc1e
    · intro hfin
      simp only [bumpProgress] at hfin
      rw [countTimeoutLines_cons, isTimeoutLine_dir_line]
      simpa using hz1e hfin
  · intro name ep t d pfx il σ σ1 ext ih1 _ _
    rw [scanSub_timedOut]
    constructor
    · rw [countTimeoutLines_cons, isTimeoutLine_dir_line,
        countTimeoutLines_cons, isTimeoutLine_timeout_line]
      simp [countTimeoutLines]
    · intro hfin
      simp only [bumpProgress] at hfin
      exact absurd hfin (by simp)
  · intro name ep t d pfx il σ msg herr _
    exact absurd herr (by simp [DispatchOutcome.isErrored])

/-- C3: once the stop flag is set, every recursive call and every sibling
iteration returns immediately with nothing more, so no further directory
is visited and no counter moves; a timed-out child contributes exactly its
directory line followed by one `[Scan timeout]` line at the child prefix
and sets the global stop flag; when no dispatch fails with a non-timeout
error, the whole output carries at most one `[Scan timeout]` line.
Concretely, a root of `a`, a timing-out `b` and `c` yields the lines of
`a`, the line of `b` and one timeout marker, `c` is never reached, the
stop flag ends set, and the visited-directory counter counts only the
root, `a`, and the timed-out dispatch of `b` that ran until its deadline,
never increasing afterwards. -/
theorem c3_timeout_aborts_scan (cfg : ScanConfig) (path name ep : String)
    (t : ScanTarget) (d : Nat) (pfx : String) (il : Bool) (σ : ScanState)
    (es : List DirEntry) :
    (σ.stop_event = true → scan_directory cfg path t d pfx σ = ([], σ)) ∧
    (σ.stop_event = true → scanChildren cfg.params path d pfx es σ = ([], σ)) ∧
    ((scanSub cfg.params name ep .timedOut t d pfx il σ).1 =
      [pfx ++ entryGlyph cfg.use_unicode il ++ name ++ "/",
       pfx ++ childExtension cfg.use_unicode il ++ lastGlyph cfg.use_unicode ++
         "[Scan timeout]"] ∧
     (scanSub cfg.params name ep .timedOut t d pfx il σ).2.stop_event = true ∧
     countTimeoutLines (scanSub cfg.params name ep .timedOut t d pfx il σ).1 = 1) ∧
    (noErrorsT t = true →
      countTimeoutLines (scan_directory cfg path t d pfx σ).1 ≤ 1) ∧
    ((scan_directory cfgDefault "/r"
        (.ok [.dir "a" .ok [], .dir "b" .timedOut [], .dir "c" .ok []])
        0 "" initState).1 =
      ["├─ a/", "├─ b/", "│  └─ [Scan timeout]"] ∧
     countTimeoutLines (scan_directory cfgDefault "/r"
        (.ok [.dir "a" .ok [], .dir "b" .timedOut [], .dir "c" .ok []])
        0 "" initState).1 = 1 ∧
     (scan_directory cfgDefault "/r"
        (.ok [.dir "a" .ok [], .dir "b" .timedOut [], .dir "c" .ok []])
        0 "" initState).2.stop_event = true ∧
     (scan_directory cfgDefault "/r"
        (.ok [.dir "a" .ok [], .dir "b" .timedOut [], .dir "c" .ok []])
        0 "" initState).2.total = 3) := by
  refine ⟨?_, ?_, ⟨?_, ?_, ?_⟩, ?_, ?_, ?_, ?_, ?_⟩
  · intro h
    exact scanDir_stop cfg.params path t d pfx σ h
  · intro h
    exact scanChildren_stop cfg.params path d pfx es σ h
  · rw [scanSub_timedOut]
    rfl
  · rw [scanSub_timedOut]
    simp [bumpProgress]
  · rw [scanSub_timedOut]
    rw [countTimeoutLines_cons]
    have h1 : isTimeoutLine (pfx ++ entryGlyph cfg.params.use_unicode il ++ name ++ "/")
        = false := isTimeoutLine_dir_line _
    rw [h1, countTimeoutLines_cons, isTimeoutLine_timeout_line]
    simp [countTimeoutLines]
  · intro hne
    exact ((timeout_count_invariant cfg.params).1 path t d pfx σ hne).1
  · simp +decide [scan_directory, ScanConfig.params, cfgDefault, scanDir, scanChildren,
      scanChild, scanSub, visibleSorted, sortByName, insertByName, isHiddenName,
      bumpProgress, initState, depthExceeded, DirEntry.name, secUpdate, entryGlyph,
      childExtension, lastGlyph, branchGlyph, spaceGlyph, verticalGlyph]
  · simp +decide [scan_directory, ScanConfig.params, cfgDefault, scanDir, scanChildren,
      scanChild, scanSub, visibleSorted, sortByName, insertByName, isHiddenName,
      bumpProgress, initState, depthExceeded, DirEntry.name, secUpdate, entryGlyph,
      childExtension, lastGlyph, branchGlyph, spaceGlyph, verticalGlyph,
      countTimeoutLines, isTimeoutLine, timeoutPat]
  · simp +decide [scan_directory, ScanConfig.params, cfgDefault, scanDir, scanChildren,
      scanChild, scanSub, visibleSorted, sortByName, insertByName, isHiddenName,
      bumpProgress, initState, depthExceeded, DirEntry.name, secUpdate, entryGlyph,
      childExtension, lastGlyph, branchGlyph, spaceGlyph, verticalGlyph]
  · simp +decide [scan_directory, ScanConfig.params, cfgDefault, scanDir, scanChildren,
      scanChild, scanSub, visibleSorted, sortByName, insertByName, isHiddenName,
      bumpProgress, initState, depthExceeded, DirEntry.name, secUpdate, entryGlyph,
      childExtension, lastGlyph, branchGlyph, spaceGlyph, verticalGlyph]

theorem c2_progress_counts_nonsymlink_children_witness :
    (scan_directory cfgDefault "/r" (.ok [.dir "x" .ok [], .file "f"]) 0 "" initState).2.progress =
      initState.progress +
        processedT cfgDefault.follow_symlinks cfgDefault.show_hidden
          (.ok [.dir "x" .ok [], .file "f"]) :=
  (c2_progress_counts_nonsymlink_children cfgDefault "/r" "n" 0 "" true initState
    (.ok [.dir "x" .ok [], .file "f"]) rfl).2.2.2.2 rfl
    (by simp [noTimeoutT, noTimeoutL, noTimeoutE, DispatchOutcome.isTimedOut])

theorem c3_timeout_aborts_scan_witness :
    scan_directory cfgDefault "/r" (.ok []) 0 "" ⟨true, 5, 7, []⟩ = ([], ⟨true, 5, 7, []⟩) ∧
    countTimeoutLines (scan_directory cfgDefault "/r"
      (.ok [.dir "b" .timedOut []]) 0 "" initState).1 ≤ 1 :=
  ⟨(c3_timeout_aborts_scan cfgDefault "/r" "n" "p" (.ok []) 0 "" true ⟨true, 5, 7, []⟩ []).1 rfl,
   (c3_timeout_aborts_scan cfgDefault "/r" "n" "p" (.ok [.dir "b" .timedOut []]) 0 "" true
      initState []).2.2.2.1
     (by simp [noErrorsT, noErrorsL, noErrorsE, DispatchOutcome.isErrored])⟩

theorem c4_depth_bound_witness :
    scan_directory { cfgDefault with max_depth := some 1 } "/r" (.ok [.file "f"]) 2 ""
      initState = ([], initState) ∧
    (∃ restLines σf,
      scan_directory { cfgDefault with max_depth := some 1 } "/r" (.ok [.dir "x" .ok []])
        1 "" initState = (("" ++ entryGlyph true true ++ "x" ++ "/") :: restLines, σf)) :=
  ⟨(c4_depth_bound { cfgDefault with max_depth := some 1 } "/r" (.ok [.file "f"]) 2 1 ""
      initState "x" .ok [] rfl).1 (by decide),
   (c4_depth_bound { cfgDefault with max_depth := some 1 } "/r" (.ok [.file "f"]) 1 1 ""
      initState "x" .ok [] rfl).2 (by decide) rfl (by decide)⟩

theorem c6_deterministic_order_witness :
    (scan_directory cfgDefault "/r" (.ok [.dir "x" .ok [], .file "f"]) 0 "" initState).1 =
      spec_lines_target cfgDefault.show_hidden cfgDefault.use_unicode ""
        (.ok [.dir "x" .ok [], .file "f"]) :=
  (c6_deterministic_order cfgDefault "/r" (.ok [.dir "x" .ok [], .file "f"]) 0 "" initState
    [] rfl rfl rfl
    (by simp [allOkT, allOkL, allOkE, DispatchOutcome.isTimedOut,
      DispatchOutcome.isErrored])).1

theorem c8_error_local_witness :
    scanSub cfgDefault.params "x" ("/r" ++ "/" ++ "x") (.errored "boom") (.ok []) 0 ""
      true initState =
      (["" ++ entryGlyph true true ++ "x" ++ "/",
        "" ++ childExtension true true ++ lastGlyph true ++ "[Error: " ++ "boom" ++ "]"],
       bumpProgress (secUpdate cfgDefault.params "x" ("/r" ++ "/" ++ "x") initState)) :=
  (c8_error_local cfgDefault "/r" "x" "boom" [] [] 0 "" true initState rfl).1

theorem c9_keyword_matcher_witness :
    check_security_keywords "PASSWORD-store" = check_security_keywords "password-STORE" :=
  c9_keyword_matcher.2.2.1 "PASSWORD-store" "password-STORE" (by decide)

theorem c10_symlink_rendering_witness :
    scanChild cfgDefault.params "/r" 0 "" true (.linkToFile "s") initState =
      (["" ++ entryGlyph true true ++ "s" ++ "/ [symlink]"], initState) :=
  (c10_symlink_rendering cfgDefault "/r" "s" "rn" "rp" .ok [] 0 "" true initState rfl).2.2.1
